import Mathlib

/-!
Verification of the melierx-backend newsletter publishing core: the
idempotent publish pipeline, the delivery queue, the delivery worker,
the e-mail client and the subscriber-email value object, shallowly
embedded from the Rust sources.  Database tables are modelled as Lean
lists of row structures; a handler is a pure function from a database
state to a new state and an HTTP response; the concurrent publish path
and the background worker are modelled as small-step transition systems
whose atomic steps are the database transactions of the source.
-/

namespace Melierx

/-- An HTTP response as the handlers produce it: status code, header list
and body, following `actix_web::HttpResponse` as used in `src/utils.rs`
and `src/routes/admin/newsletter/post.rs`. -/
structure HttpResponse where
  status : Nat
  headers : List (String × String)
  body : String
deriving DecidableEq, Repr

/-- `see_other` from `src/utils.rs`: a 303 See Other response carrying a
`Location` header and an empty (`finish()`) body. -/
def see_other (location : String) : HttpResponse :=
  { status := 303, headers := [("Location", location)], body := "" }

/-- Modelled from the spec: `src/idempotency/key.rs` is not in the tree
(only re-exported by `src/idempotency/mod.rs`), so the `IdempotencyKey`
newtype is taken from the spec's data model: "a validated string, 1–50
characters, restricted to alphanumerics". -/
structure IdempotencyKey where
  key : String
deriving DecidableEq, Repr

/-- Modelled from the spec: the fallible conversion `String ->
IdempotencyKey` behind `idempotency_key.try_into()` in
`src/routes/admin/newsletter/post.rs`; it "rejects empty, over-length,
or symbol-containing input" with a 1–50 character alphanumeric window. -/
def IdempotencyKey.tryFrom (s : String) : Except String IdempotencyKey :=
  if s.length = 0 then
    .error "The idempotency key cannot be empty."
  else if 50 < s.length then
    .error "The idempotency key must be shorter than 50 characters."
  else if ¬ (s.data.all Char.isAlphanum) then
    .error "The idempotency key must be alphanumeric."
  else
    .ok ⟨s⟩

/-- One row of the idempotency table (`idempotency_responses` in the
spec's persisted-state layout): keyed by `(owner_id, idempotency_key)`;
`response = none` is the placeholder claim of phase 1, `some` the saved
response of phase 2. -/
structure IdempotencyRow where
  userId : Nat
  idempotencyKey : String
  response : Option HttpResponse
deriving DecidableEq, Repr

/-- One row of the `issues` table, as inserted by
`insert_newsletter_issue` in `src/routes/admin/newsletter/post.rs`. -/
structure IssueRow where
  issueId : Nat
  title : String
  textContent : String
  htmlContent : String
deriving DecidableEq, Repr

/-- One row of the `issue_delivery_queue` table: `(issue_id,
subscriber_email)` plus the bounded retry counter of the spec's
`delivery_queue` layout. -/
structure QueueRow where
  issueId : Nat
  subscriberEmail : String
  nRetries : Nat
deriving DecidableEq, Repr

/-- One row of the external `subscriptions` table, of which the publish
path only reads `email` and `status` (`WHERE status = 'confirmed'`). -/
structure Subscription where
  email : String
  status : String
deriving DecidableEq, Repr

/-- The database state shared by the publish handler and the worker.
Tables are lists of rows (order is immaterial; inserts prepend).
`nextIssueId` models the freshness of `Uuid::new_v4()`. -/
structure DbState where
  idempotency : List IdempotencyRow
  issues : List IssueRow
  queue : List QueueRow
  subscriptions : List Subscription
  nextIssueId : Nat
deriving DecidableEq, Repr

/-- The emails selected by `SELECT email FROM subscriptions WHERE status
= 'confirmed'`, shared by `enqueue_delivery_tasks` and the legacy
`get_confirmed_subscribers`. -/
def confirmedEmails (subs : List Subscription) : List String :=
  (subs.filter (fun s => s.status = "confirmed")).map (fun s => s.email)

/-- `enqueue_delivery_tasks` from `src/routes/admin/newsletter/post.rs`:
the single `INSERT INTO issue_delivery_queue (issue_id,
subscriber_email) SELECT $1, email FROM subscriptions WHERE status =
'confirmed'` statement, returning the set of rows it inserts (retry
counters start at the column default 0). -/
def enqueue_delivery_tasks (issueId : Nat) (subs : List Subscription) :
    List QueueRow :=
  (confirmedEmails subs).map
    (fun e => { issueId := issueId, subscriberEmail := e, nRetries := 0 })

/-- Row-lookup predicate for the `(owner_id, idempotency_key)` unique
key of the idempotency table. -/
def rowMatches (userId : Nat) (key : String) (r : IdempotencyRow) : Bool :=
  r.userId = userId && r.idempotencyKey = key

/-- The idempotency row stored for `(userId, key)`, if any. -/
def findIdempotencyRow (st : DbState) (userId : Nat) (key : String) :
    Option IdempotencyRow :=
  st.idempotency.find? (rowMatches userId key)

/-- Modelled from the spec: the `UPDATE` half of `save_response`
(`src/idempotency/persistence.rs` is not in the tree): write the final
response into the placeholder row for `(userId, key)`. -/
def saveResponseUpdate (rows : List IdempotencyRow) (userId : Nat)
    (key : String) (resp : HttpResponse) : List IdempotencyRow :=
  rows.map (fun r =>
    if rowMatches userId key r then { r with response := some resp } else r)

/-- `insert_newsletter_issue` from
`src/routes/admin/newsletter/post.rs`: insert one issue row with a fresh
id, returning the new state and the id. -/
def insert_newsletter_issue (st : DbState) (title textContent htmlContent :
    String) : DbState × Nat :=
  let issueId := st.nextIssueId
  ({ st with
      issues := ⟨issueId, title, textContent, htmlContent⟩ :: st.issues,
      nextIssueId := issueId + 1 },
   issueId)

/-- The form body of the admin publish endpoint (`FormData` in
`src/routes/admin/newsletter/post.rs`). -/
structure FormData where
  title : String
  textContent : String
  htmlContent : String
  idempotencyKey : String
deriving DecidableEq, Repr

/-- `publish_newsletter` from `src/routes/admin/newsletter/post.rs`,
sequential view: validate the key (`e400` on failure), run the
admission step (`try_processing`, modelled from the spec since
`src/idempotency/persistence.rs` is not in the tree: replay a saved
response verbatim, otherwise claim the key), insert the issue, enqueue
the obligations and save the response — the claim, the business writes
and the response save commit as one atomic unit, which a pure function
models exactly.  A claim row without a saved response (only possible
mid-flight of a concurrent duplicate) is answered 5xx, the conservative
reading the spec's §9 allows; the sequential theorems never reach it. -/
def publish_newsletter (st : DbState) (userId : Nat) (form : FormData) :
    DbState × HttpResponse :=
  match IdempotencyKey.tryFrom form.idempotencyKey with
  | .error e => (st, { status := 400, headers := [], body := e })
  | .ok k =>
    match findIdempotencyRow st userId k.key with
    | some row =>
      match row.response with
      | some saved => (st, saved)
      | none =>
        (st, { status := 500, headers := [],
               body := "a request with this key is already in flight" })
    | none =>
      let st1 := { st with
        idempotency := ⟨userId, k.key, none⟩ :: st.idempotency }
      let step := insert_newsletter_issue st1 form.title form.textContent
        form.htmlContent
      let st2 := step.1
      let issueId := step.2
      let st3 := { st2 with
        queue := enqueue_delivery_tasks issueId st2.subscriptions
          ++ st2.queue }
      let response := see_other "/admin/newsletters"
      let st4 := { st3 with
        idempotency :=
          saveResponseUpdate st3.idempotency userId k.key response }
      (st4, response)

/-- The outcome of the outbound HTTP POST in
`EmailClient::send_email` (`src/email_client.rs`): either the transport
fails — a connection error or the configured `reqwest` client timeout —
or the provider answers with some status code. -/
inductive HttpOutcome where
  | transportError
  | response (status : Nat)
deriving DecidableEq, Repr

/-- The error type of `EmailClient::send_email`, following
`reqwest::Error`: a transport/timeout error from `send()`, or a status
error from `error_for_status()`. -/
inductive ReqwestError where
  | transport
  | statusError (code : Nat)
deriving DecidableEq, Repr

/-- `reqwest::Response::error_for_status` as called in
`src/email_client.rs`: an error exactly when the status is a client
error (400–499) or a server error (500–599). -/
def error_for_status (status : Nat) : Except ReqwestError Unit :=
  if 400 ≤ status ∧ status ≤ 599 then .error (.statusError status)
  else .ok ()

/-- `EmailClient::send_email` from `src/email_client.rs`, as a function
of the HTTP outcome: `send().await?` propagates transport and timeout
errors, then `error_for_status()?` propagates status errors, and only
then `Ok(())` is returned. -/
def send_email (outcome : HttpOutcome) : Except ReqwestError Unit :=
  match outcome with
  | .transportError => .error .transport
  | .response s =>
    match error_for_status s with
    | .error e => .error e
    | .ok _ => .ok ()

/-- The user-part character class of the e-mail check used by the
`validator` crate behind `#[validate(email)]` in
`src/domain/subscriber_email.rs`: ASCII alphanumerics plus
the specials of the HTML5 user-part regex, listed by code point. -/
def isEmailUserChar (c : Char) : Bool :=
  c.isAlphanum || c.toNat = 33 || c.toNat = 35 || c.toNat = 36 ||
    c.toNat = 37 || c.toNat = 38 || c.toNat = 39 || c.toNat = 42 ||
    c.toNat = 43 || c.toNat = 45 || c.toNat = 46 || c.toNat = 47 ||
    c.toNat = 61 || c.toNat = 63 || c.toNat = 94 || c.toNat = 95 ||
    c.toNat = 96 || c.toNat = 123 || c.toNat = 124 || c.toNat = 125 ||
    c.toNat = 126

/-- One domain label of the e-mail check: nonempty, alphanumerics and
hyphens only, first and last character alphanumeric. -/
def validDomainLabel (cs : List Char) : Bool :=
  match cs with
  | [] => false
  | _ =>
    cs.all (fun c => c.isAlphanum || c = '-') &&
    (cs.head?.elim false Char.isAlphanum) &&
    (cs.getLast?.elim false Char.isAlphanum)

/-- Split a character list at its last occurrence of the given
character, returning the parts before and after it. -/
def splitAtLast (sep : Char) (cs : List Char) :
    Option (List Char × List Char) :=
  let rev := cs.reverse
  let afterRev := rev.takeWhile (fun c => c ≠ sep)
  let rest := rev.drop afterRev.length
  match rest with
  | [] => none
  | _ :: beforeRev => some (beforeRev.reverse, afterRev.reverse)

/-- Split a character list on a separator into the list of (possibly
empty) chunks between occurrences. -/
def splitOnChar (sep : Char) : List Char → List (List Char)
  | [] => [[]]
  | c :: cs =>
    if c = sep then [] :: splitOnChar sep cs
    else
      match splitOnChar sep cs with
      | [] => [[c]]
      | chunk :: rest => (c :: chunk) :: rest

/-- The e-mail validity check of the `validator` crate (an external
collaborator of `src/domain/subscriber_email.rs`): reject the empty
string and strings without an `@`; split at the last `@`; the user part
is nonempty, at most 64 characters, over the HTML5 user charset; the
domain part is at most 255 characters and a dot-separated sequence of
valid labels.  (The upstream fallback for bracketed IP-literal domains
is not modelled; no claim exercises it.) -/
def validate_email (s : String) : Bool :=
  match splitAtLast '@' s.toList with
  | none => false
  | some (user, domain) =>
    decide (0 < user.length) && decide (user.length ≤ 64) &&
    user.all isEmailUserChar &&
    decide (domain.length ≤ 255) &&
    (splitOnChar '.' domain).all validDomainLabel

/-- The `SubscriberEmail` newtype from
`src/domain/subscriber_email.rs`: a `String` wrapper. -/
structure SubscriberEmail where
  email : String
deriving DecidableEq, Repr

/-- `SubscriberEmail::parse` from `src/domain/subscriber_email.rs`:
validate `s` through the `EmailWrapper` validator and, on success, wrap
the original string unchanged (`Ok(Self(s))`). -/
def SubscriberEmail.parse (s : String) : Except String SubscriberEmail :=
  if validate_email s then .ok ⟨s⟩
  else .error (s ++ " is not a valid subscriber email.")

/-- `AsRef<str> for SubscriberEmail` from
`src/domain/subscriber_email.rs`: return the wrapped string. -/
def SubscriberEmail.as_ref (e : SubscriberEmail) : String := e.email

namespace Legacy

/-- `PublishError` from `src/routes/newsletters.rs`. -/
inductive PublishError where
  | authError (msg : String)
  | unexpectedError (msg : String)
deriving DecidableEq, Repr

/-- `ResponseError::status_code for PublishError` from
`src/routes/newsletters.rs`: 401 for authentication failures, 500 for
unexpected errors. -/
def PublishError.statusCode : PublishError → Nat
  | .authError _ => 401
  | .unexpectedError _ => 500

/-- The subscriber loop of the legacy `publish_newsletter` in
`src/routes/newsletters.rs`: for each confirmed subscriber, a parse
failure is skipped with a warning, and a sender failure is propagated
with `?` as an `UnexpectedError`; when the loop finishes the handler
returns `HttpResponse::Ok()` (status 200). -/
def sendLoop (sender : String → Bool) :
    List (Except String SubscriberEmail) → Except PublishError HttpResponse
  | [] => .ok { status := 200, headers := [], body := "" }
  | .ok sub :: rest =>
    if sender sub.as_ref then sendLoop sender rest
    else .error (.unexpectedError
      ("Failed to send newsletter to " ++ sub.as_ref))
  | .error _ :: rest => sendLoop sender rest

/-- The post-authentication body of the legacy `publish_newsletter` from
`src/routes/newsletters.rs`, as a function of the confirmed-subscriber
rows and of the sender outcome per recipient: parse every confirmed
email (`get_confirmed_subscribers`), then run the delivery loop
synchronously inside the request. -/
def publish_newsletter (subscriptions : List Subscription)
    (sender : String → Bool) : Except PublishError HttpResponse :=
  sendLoop sender ((confirmedEmails subscriptions).map SubscriberEmail.parse)

end Legacy

/-! ## Theorems -/

lemma tryFrom_ok_shape {s : String} {k : IdempotencyKey}
    (h : IdempotencyKey.tryFrom s = .ok k) : k = ⟨s⟩ := by
  unfold IdempotencyKey.tryFrom at h
  split at h
  · exact absurd h (by simp)
  · split at h
    · exact absurd h (by simp)
    · split at h
      · exact absurd h (by simp)
      · cases h; rfl

/-- C7: converting a string into an `IdempotencyKey` succeeds exactly
when the string is 1–50 characters of alphanumerics, and a rejected key
makes `publish_newsletter` return a 400 client error with the database
state untouched (no side effect). -/
theorem idempotency_key_accept_iff (s : String) :
    ((∃ k, IdempotencyKey.tryFrom s = .ok k) ↔
      (1 ≤ s.length ∧ s.length ≤ 50 ∧ s.data.all Char.isAlphanum = true)) ∧
    (∀ (st : DbState) (userId : Nat) (form : FormData) (e : String),
      IdempotencyKey.tryFrom form.idempotencyKey = .error e →
      publish_newsletter st userId form =
        (st, { status := 400, headers := [], body := e })) := by
  constructor
  · unfold IdempotencyKey.tryFrom
    constructor
    · rintro ⟨k, hk⟩
      split at hk
      · exact absurd hk (by simp)
      · split at hk
        · exact absurd hk (by simp)
        · split at hk
          · exact absurd hk (by simp)
          · refine ⟨by omega, by omega, by
              rename_i h3
              exact of_not_not (fun hc => h3 (fun hcc => hc hcc))⟩
    · rintro ⟨h1, h2, h3⟩
      refine ⟨⟨s⟩, ?_⟩
      rw [if_neg (by omega), if_neg (by omega), if_neg (by simp [h3])]
  · intro st userId form e he
    unfold publish_newsletter
    rw [he]

/-- C7 witness: the symbol-containing key `"ab!"` is rejected and the
publish handler answers 400 leaving the empty database unchanged. -/
theorem idempotency_key_accept_iff_witness :
    publish_newsletter ⟨[], [], [], [], 0⟩ 7 ⟨"t", "x", "h", "ab!"⟩ =
      (⟨[], [], [], [], 0⟩,
       { status := 400, headers := [],
         body := "The idempotency key must be alphanumeric." }) :=
  (idempotency_key_accept_iff "ab!").2 ⟨[], [], [], [], 0⟩ 7
    ⟨"t", "x", "h", "ab!"⟩ _ rfl

/-- C9 counterexample: the provider status 304 is not a 2xx success,
yet `send_email` returns `Ok(())` for it, because
`reqwest::Response::error_for_status` only rejects 4xx/5xx. -/
theorem send_email_ok_on_304_counterexample :
    send_email (HttpOutcome.response 304) = .ok () ∧
      ¬ (200 ≤ 304 ∧ 304 ≤ 299) := by
  constructor
  · rfl
  · decide

/-- C9 amended: `send_email` returns `Ok(())` exactly when the POST
completes (no transport error or timeout) and the provider status is
not a client or server error (outside 400–599); any 4xx/5xx status or
transport failure is returned as an `Err`. -/
theorem send_email_ok_iff_not_error_status (o : HttpOutcome) :
    send_email o = .ok () ↔
      ∃ s, o = .response s ∧ ¬ (400 ≤ s ∧ s ≤ 599) := by
  cases o with
  | transportError => simp [send_email]
  | response s =>
    by_cases h : 400 ≤ s ∧ s ≤ 599
    · simp [send_email, error_for_status, h]
    · have hok : send_email (.response s) = .ok () := by
        simp [send_email, error_for_status, h]
      rw [hok]
      simp only [true_iff]
      exact ⟨s, rfl, h⟩

/-- C10: whenever `SubscriberEmail::parse` accepts a string, `as_ref` on
the result returns that string exactly — validation never alters the
accepted email. -/
theorem subscriber_email_parse_roundtrip (s : String) (e : SubscriberEmail)
    (h : SubscriberEmail.parse s = .ok e) : e.as_ref = s := by
  unfold SubscriberEmail.parse at h
  split at h
  · cases h; rfl
  · exact absurd h (by simp)

/-- C10 witness: a concrete accepted email round-trips unchanged. -/
theorem subscriber_email_parse_roundtrip_witness :
    SubscriberEmail.parse "ursula@example.com" =
      .ok ⟨"ursula@example.com"⟩ ∧
    SubscriberEmail.as_ref ⟨"ursula@example.com"⟩ = "ursula@example.com" :=
  ⟨rfl, subscriber_email_parse_roundtrip "ursula@example.com"
    ⟨"ursula@example.com"⟩ rfl⟩

/-- C4: `enqueue_delivery_tasks` creates exactly one obligation row per
currently-confirmed subscriber — the inserted rows' emails are exactly
the confirmed emails (so N confirmed subscribers yield exactly N rows,
never more, never fewer), every row carries the published issue id and
a zero retry counter, all as the image of one set-based query. -/
theorem enqueue_exactly_one_row_per_confirmed (issueId : Nat)
    (subs : List Subscription) :
    (enqueue_delivery_tasks issueId subs).length =
      (subs.filter (fun s => s.status = "confirmed")).length ∧
    (enqueue_delivery_tasks issueId subs).map QueueRow.subscriberEmail =
      confirmedEmails subs ∧
    (∀ r ∈ enqueue_delivery_tasks issueId subs,
      r.issueId = issueId ∧ r.nRetries = 0) := by
  refine ⟨?_, ?_, ?_⟩
  · simp [enqueue_delivery_tasks, confirmedEmails]
  · unfold enqueue_delivery_tasks
    rw [List.map_map]
    exact (List.map_congr_left fun e _ => rfl).trans (List.map_id _)
  · intro r hr
    unfold enqueue_delivery_tasks at hr
    obtain ⟨e, _, he⟩ := List.mem_map.mp hr
    cases he
    exact ⟨rfl, rfl⟩

/-- C4 witness: with two confirmed subscribers and one pending, exactly
the two confirmed rows are enqueued for issue 5. -/
theorem enqueue_exactly_one_row_per_confirmed_witness :
    (enqueue_delivery_tasks 5
        [⟨"a@b.com", "confirmed"⟩, ⟨"e@f.com", "pending"⟩,
         ⟨"c@d.com", "confirmed"⟩]).length = 2 ∧
    (enqueue_delivery_tasks 5
        [⟨"a@b.com", "confirmed"⟩, ⟨"e@f.com", "pending"⟩,
         ⟨"c@d.com", "confirmed"⟩]).map QueueRow.subscriberEmail =
      ["a@b.com", "c@d.com"] ∧
    ∀ r ∈ enqueue_delivery_tasks 5
        [⟨"a@b.com", "confirmed"⟩, ⟨"e@f.com", "pending"⟩,
         ⟨"c@d.com", "confirmed"⟩], r.issueId = 5 ∧ r.nRetries = 0 := by
  obtain ⟨h1, h2, h3⟩ := enqueue_exactly_one_row_per_confirmed 5
    [⟨"a@b.com", "confirmed"⟩, ⟨"e@f.com", "pending"⟩,
     ⟨"c@d.com", "confirmed"⟩]
  exact ⟨by rw [h1]; decide, by rw [h2]; decide, h3⟩

/-- C6 counterexample: a sender failure IS surfaced to the HTTP client
by the legacy `POST /newsletters` handler (the one `startup.rs`
registers): with one confirmed subscriber and a failing sender, the
handler propagates the error, rendered with status code 500. -/
theorem legacy_sender_failure_surfaced_counterexample :
    Legacy.publish_newsletter [⟨"a@b.com", "confirmed"⟩] (fun _ => false) =
      .error (.unexpectedError "Failed to send newsletter to a@b.com") ∧
    Legacy.PublishError.statusCode
      (.unexpectedError "Failed to send newsletter to a@b.com") = 500 := by
  exact ⟨rfl, rfl⟩

lemma sendLoop_all_ok (l : List (Except String SubscriberEmail)) :
    Legacy.sendLoop (fun _ => true) l =
      .ok { status := 200, headers := [], body := "" } := by
  induction l with
  | nil => rfl
  | cons x rest ih =>
    cases x with
    | ok sub => simpa [Legacy.sendLoop] using ih
    | error msg => simpa [Legacy.sendLoop] using ih

/-- C6 amended: the admin publish handler (`publish_newsletter` in
`src/routes/admin/newsletter/post.rs`) makes no sender call, so its
response never depends on a sender outcome; but the legacy
`POST /newsletters` handler sends synchronously inside the request and
surfaces a sender failure as a 500 Internal Server Error, returning 200
only when every send succeeds. -/
theorem sender_failure_confined_amended :
    (∀ (email : String) (rest : List (Except String SubscriberEmail))
        (sender : String → Bool),
      validate_email email = true → sender email = false →
      Legacy.sendLoop sender (SubscriberEmail.parse email :: rest) =
        .error (.unexpectedError
          ("Failed to send newsletter to " ++ email))) ∧
    (∀ subs : List Subscription,
      Legacy.publish_newsletter subs (fun _ => true) =
        .ok { status := 200, headers := [], body := "" }) := by
  constructor
  · intro email rest sender hvalid hfail
    simp [SubscriberEmail.parse, hvalid, Legacy.sendLoop,
      SubscriberEmail.as_ref, hfail]
  · intro subs
    unfold Legacy.publish_newsletter
    exact sendLoop_all_ok _

/-- C6 amended witness: concrete run of the legacy handler with a
failing sender for `a@b.com`. -/
theorem sender_failure_confined_amended_witness :
    Legacy.sendLoop (fun _ => false)
        [SubscriberEmail.parse "a@b.com"] =
      .error (.unexpectedError "Failed to send newsletter to a@b.com") :=
  sender_failure_confined_amended.1 "a@b.com" [] (fun _ => false)
    (by decide) rfl

/-! ### The fresh-publish and replay runs of the admin handler -/

lemma rowMatches_self (u : Nat) (s : String) (resp : Option HttpResponse) :
    rowMatches u s ⟨u, s, resp⟩ = true := by
  simp [rowMatches]

lemma saveResponseUpdate_not_found (u : Nat) (s : String)
    (R : HttpResponse) :
    ∀ l : List IdempotencyRow, l.find? (rowMatches u s) = none →
      saveResponseUpdate l u s R = l
  | [], _ => rfl
  | r :: rest, h => by
    by_cases hp : rowMatches u s r
    · rw [List.find?_cons_of_pos _ hp] at h
      exact absurd h (by simp)
    · rw [List.find?_cons_of_neg _ hp] at h
      have ht := saveResponseUpdate_not_found u s R rest h
      unfold saveResponseUpdate at ht ⊢
      simp only [List.map_cons]
      rw [if_neg hp, ht]

lemma saveResponseUpdate_cons_hit (u : Nat) (s : String) (R : HttpResponse)
    (rest : List IdempotencyRow) (resp0 : Option HttpResponse)
    (h : rest.find? (rowMatches u s) = none) :
    saveResponseUpdate (⟨u, s, resp0⟩ :: rest) u s R =
      ⟨u, s, some R⟩ :: rest := by
  have ht := saveResponseUpdate_not_found u s R rest h
  unfold saveResponseUpdate at ht ⊢
  simp only [List.map_cons]
  rw [if_pos (rowMatches_self u s resp0), ht]

/-- The outcome of a fresh publish: the key is claimed and completed,
the issue row and its obligation set are inserted, and the handler
returns the 303 redirect of `see_other`. -/
lemma publish_fresh_run (st : DbState) (u : Nat) (form : FormData)
    (hkey : IdempotencyKey.tryFrom form.idempotencyKey =
      .ok ⟨form.idempotencyKey⟩)
    (hfresh : findIdempotencyRow st u form.idempotencyKey = none) :
    publish_newsletter st u form =
      ({ idempotency :=
           ⟨u, form.idempotencyKey,
             some (see_other "/admin/newsletters")⟩ :: st.idempotency,
         issues := ⟨st.nextIssueId, form.title, form.textContent,
           form.htmlContent⟩ :: st.issues,
         queue := enqueue_delivery_tasks st.nextIssueId st.subscriptions
           ++ st.queue,
         subscriptions := st.subscriptions,
         nextIssueId := st.nextIssueId + 1 },
       see_other "/admin/newsletters") := by
  have hupd := saveResponseUpdate_cons_hit u form.idempotencyKey
    (see_other "/admin/newsletters") st.idempotency none hfresh
  simp [publish_newsletter, hkey, hfresh, insert_newsletter_issue, hupd]

/-- The outcome of a replayed publish: the saved response is returned
verbatim and the state is untouched. -/
lemma publish_replay_run (st : DbState) (u : Nat) (form : FormData)
    (R : HttpResponse)
    (hkey : IdempotencyKey.tryFrom form.idempotencyKey =
      .ok ⟨form.idempotencyKey⟩)
    (hsaved : findIdempotencyRow st u form.idempotencyKey =
      some ⟨u, form.idempotencyKey, some R⟩) :
    publish_newsletter st u form = (st, R) := by
  simp [publish_newsletter, hkey, hsaved]

/-- C1: with a valid key that has no prior record, publishing twice
with the same `(owner, key)` and identical payload returns the same
response object both times and the second submission leaves the
database state exactly as the first left it — one issue row and one
obligation set exist, and no side effect is re-executed. -/
theorem publish_idempotent_replay (st : DbState) (u : Nat)
    (form : FormData) (k : IdempotencyKey)
    (hkey : IdempotencyKey.tryFrom form.idempotencyKey = .ok k)
    (hfresh : findIdempotencyRow st u form.idempotencyKey = none) :
    (publish_newsletter (publish_newsletter st u form).1 u form).2 =
      (publish_newsletter st u form).2 ∧
    (publish_newsletter (publish_newsletter st u form).1 u form).1 =
      (publish_newsletter st u form).1 ∧
    (publish_newsletter st u form).1.issues =
      ⟨st.nextIssueId, form.title, form.textContent, form.htmlContent⟩ ::
        st.issues ∧
    (publish_newsletter st u form).1.queue =
      enqueue_delivery_tasks st.nextIssueId st.subscriptions ++
        st.queue := by
  obtain rfl : k = ⟨form.idempotencyKey⟩ := tryFrom_ok_shape hkey
  have h1 := publish_fresh_run st u form hkey hfresh
  have hfind2 : findIdempotencyRow (publish_newsletter st u form).1 u
      form.idempotencyKey =
      some ⟨u, form.idempotencyKey,
        some (see_other "/admin/newsletters")⟩ := by
    rw [h1]
    exact List.find?_cons_of_pos _
      (rowMatches_self u form.idempotencyKey _)
  have h2 := publish_replay_run (publish_newsletter st u form).1 u form
    (see_other "/admin/newsletters") hkey hfind2
  refine ⟨?_, ?_, ?_, ?_⟩
  · rw [h2, h1]
  · rw [h2]
  · rw [h1]
  · rw [h1]

/-- C1 witness: concrete double submission with key `"abc123"` and one
confirmed subscriber. -/
theorem publish_idempotent_replay_witness :
    (publish_newsletter
        (publish_newsletter ⟨[], [], [], [⟨"a@b.com", "confirmed"⟩], 0⟩
          1 ⟨"Newsletter title", "txt", "<p>html</p>", "abc123"⟩).1
        1 ⟨"Newsletter title", "txt", "<p>html</p>", "abc123"⟩).2 =
      (publish_newsletter ⟨[], [], [], [⟨"a@b.com", "confirmed"⟩], 0⟩
        1 ⟨"Newsletter title", "txt", "<p>html</p>", "abc123"⟩).2 ∧
    (publish_newsletter
        (publish_newsletter ⟨[], [], [], [⟨"a@b.com", "confirmed"⟩], 0⟩
          1 ⟨"Newsletter title", "txt", "<p>html</p>", "abc123"⟩).1
        1 ⟨"Newsletter title", "txt", "<p>html</p>", "abc123"⟩).1 =
      (publish_newsletter ⟨[], [], [], [⟨"a@b.com", "confirmed"⟩], 0⟩
        1 ⟨"Newsletter title", "txt", "<p>html</p>", "abc123"⟩).1 ∧
    (publish_newsletter ⟨[], [], [], [⟨"a@b.com", "confirmed"⟩], 0⟩
        1 ⟨"Newsletter title", "txt", "<p>html</p>", "abc123"⟩).1.issues =
      [⟨0, "Newsletter title", "txt", "<p>html</p>"⟩] ∧
    (publish_newsletter ⟨[], [], [], [⟨"a@b.com", "confirmed"⟩], 0⟩
        1 ⟨"Newsletter title", "txt", "<p>html</p>", "abc123"⟩).1.queue =
      enqueue_delivery_tasks 0 [⟨"a@b.com", "confirmed"⟩] ++ [] :=
  publish_idempotent_replay ⟨[], [], [], [⟨"a@b.com", "confirmed"⟩], 0⟩
    1 ⟨"Newsletter title", "txt", "<p>html</p>", "abc123"⟩ ⟨"abc123"⟩
    rfl rfl

/-- C8: a fresh publish with a valid key returns exactly the 303
See Other response whose `Location` header is `/admin/newsletters`, and
a subsequent call with the same owner and key replays that response
byte-identically. -/
theorem publish_fresh_see_other_replay (st : DbState) (u : Nat)
    (form : FormData) (k : IdempotencyKey)
    (hkey : IdempotencyKey.tryFrom form.idempotencyKey = .ok k)
    (hfresh : findIdempotencyRow st u form.idempotencyKey = none) :
    (publish_newsletter st u form).2 = see_other "/admin/newsletters" ∧
    see_other "/admin/newsletters" =
      { status := 303,
        headers := [("Location", "/admin/newsletters")], body := "" } ∧
    (publish_newsletter (publish_newsletter st u form).1 u form).2 =
      (publish_newsletter st u form).2 := by
  obtain rfl : k = ⟨form.idempotencyKey⟩ := tryFrom_ok_shape hkey
  have h1 := publish_fresh_run st u form hkey hfresh
  have hfind2 : findIdempotencyRow (publish_newsletter st u form).1 u
      form.idempotencyKey =
      some ⟨u, form.idempotencyKey,
        some (see_other "/admin/newsletters")⟩ := by
    rw [h1]
    exact List.find?_cons_of_pos _
      (rowMatches_self u form.idempotencyKey _)
  have h2 := publish_replay_run (publish_newsletter st u form).1 u form
    (see_other "/admin/newsletters") hkey hfind2
  refine ⟨by rw [h1], rfl, by rw [h2, h1]⟩

/-- C8 witness: concrete fresh publish with key `"xyz9"` followed by a
replay. -/
theorem publish_fresh_see_other_replay_witness :
    (publish_newsletter ⟨[], [], [], [], 4⟩ 2
        ⟨"T", "x", "h", "xyz9"⟩).2 = see_other "/admin/newsletters" ∧
    see_other "/admin/newsletters" =
      { status := 303,
        headers := [("Location", "/admin/newsletters")], body := "" } ∧
    (publish_newsletter
        (publish_newsletter ⟨[], [], [], [], 4⟩ 2
          ⟨"T", "x", "h", "xyz9"⟩).1 2 ⟨"T", "x", "h", "xyz9"⟩).2 =
      (publish_newsletter ⟨[], [], [], [], 4⟩ 2
        ⟨"T", "x", "h", "xyz9"⟩).2 :=
  publish_fresh_see_other_replay ⟨[], [], [], [], 4⟩ 2
    ⟨"T", "x", "h", "xyz9"⟩ ⟨"xyz9"⟩ rfl rfl

/-! ### Two concurrent publishers with the same key -/

namespace Conc

/-- Phase of one of the two concurrent publishers: not yet admitted,
holding the admission claim inside an open transaction, or finished
with a response. -/
inductive Phase where
  | start
  | working
  | done (resp : HttpResponse)
deriving DecidableEq, Repr

/-- Modelled from the spec: the global configuration of two concurrent
`publish_newsletter` calls with the same `(owner, key)` and payload
(`src/idempotency/persistence.rs` is not in the tree).  `claim` is the
uncommitted placeholder insert of `try_processing` — the storage
engine's unique constraint lets at most one transaction hold it, and a
concurrent identical insert blocks until it resolves (§4.1 of the
spec).  The actors are named by a `Bool`. -/
structure Config where
  db : DbState
  claim : Option Bool
  phaseA : Phase
  phaseB : Phase
deriving DecidableEq, Repr

/-- Modelled from the spec: the atomic `commitAndSave` writes of a
winning publisher — the issue row, its obligation set and the completed
idempotency record land in one all-or-nothing unit, matching the fresh
branch of `publish_newsletter`. -/
def commitDb (db : DbState) (u : Nat) (form : FormData) : DbState :=
  { db with
    idempotency :=
      ⟨u, form.idempotencyKey,
        some (see_other "/admin/newsletters")⟩ :: db.idempotency,
    issues := ⟨db.nextIssueId, form.title, form.textContent,
      form.htmlContent⟩ :: db.issues,
    queue := enqueue_delivery_tasks db.nextIssueId db.subscriptions
      ++ db.queue,
    nextIssueId := db.nextIssueId + 1 }

/-- Modelled from the spec: the atomic steps of the two racing publish
calls.  A publisher can claim the key when no record and no in-flight
claim exist (the unique-constraint insert), commit its writes and
response atomically when it holds the claim, or replay a committed
response verbatim; a publisher that finds an unresolved claim blocks at
the database level, so it has no step until the claim resolves. -/
inductive Step (u : Nat) (form : FormData) : Config → Config → Prop where
  | claimA (c : Config) (h1 : c.claim = none) (h2 : c.phaseA = .start)
      (h3 : findIdempotencyRow c.db u form.idempotencyKey = none) :
      Step u form c { c with claim := some false, phaseA := .working }
  | claimB (c : Config) (h1 : c.claim = none) (h2 : c.phaseB = .start)
      (h3 : findIdempotencyRow c.db u form.idempotencyKey = none) :
      Step u form c { c with claim := some true, phaseB := .working }
  | commitA (c : Config) (h1 : c.claim = some false)
      (h2 : c.phaseA = .working) :
      Step u form c { c with
        db := commitDb c.db u form, claim := none,
        phaseA := .done (see_other "/admin/newsletters") }
  | commitB (c : Config) (h1 : c.claim = some true)
      (h2 : c.phaseB = .working) :
      Step u form c { c with
        db := commitDb c.db u form, claim := none,
        phaseB := .done (see_other "/admin/newsletters") }
  | replayA (c : Config) (R : HttpResponse) (h2 : c.phaseA = .start)
      (h3 : findIdempotencyRow c.db u form.idempotencyKey =
        some ⟨u, form.idempotencyKey, some R⟩) :
      Step u form c { c with phaseA := .done R }
  | replayB (c : Config) (R : HttpResponse) (h2 : c.phaseB = .start)
      (h3 : findIdempotencyRow c.db u form.idempotencyKey =
        some ⟨u, form.idempotencyKey, some R⟩) :
      Step u form c { c with phaseB := .done R }

/-- Reflexive-transitive closure of `Step`. -/
inductive Reach (u : Nat) (form : FormData) (c0 : Config) : Config → Prop
  | refl : Reach u form c0 c0
  | tail {b c : Config} : Reach u form c0 b → Step u form b c →
      Reach u form c0 c

/-- Both publishers start unadmitted over the initial database. -/
def init (db0 : DbState) : Config := ⟨db0, none, .start, .start⟩

/-- The stage invariant of the race: untouched, claimed by one actor,
or committed exactly once with every finished actor holding the
committed response. -/
def Inv (db0 : DbState) (u : Nat) (form : FormData) (c : Config) : Prop :=
  (c.db = db0 ∧ c.claim = none ∧ c.phaseA = .start ∧ c.phaseB = .start)
  ∨ (c.db = db0 ∧ c.claim = some false ∧ c.phaseA = .working ∧
      c.phaseB = .start)
  ∨ (c.db = db0 ∧ c.claim = some true ∧ c.phaseA = .start ∧
      c.phaseB = .working)
  ∨ (c.db = commitDb db0 u form ∧ c.claim = none ∧
      (c.phaseA = .done (see_other "/admin/newsletters") ∨
        c.phaseA = .start) ∧
      (c.phaseB = .done (see_other "/admin/newsletters") ∨
        c.phaseB = .start) ∧
      (c.phaseA = .done (see_other "/admin/newsletters") ∨
        c.phaseB = .done (see_other "/admin/newsletters")))

lemma find_commitDb (db : DbState) (u : Nat) (form : FormData) :
    findIdempotencyRow (commitDb db u form) u form.idempotencyKey =
      some ⟨u, form.idempotencyKey,
        some (see_other "/admin/newsletters")⟩ :=
  List.find?_cons_of_pos _ (rowMatches_self u form.idempotencyKey _)

lemma reach_inv (db0 : DbState) (u : Nat) (form : FormData)
    (hfresh : findIdempotencyRow db0 u form.idempotencyKey = none)
    {c : Config} (h : Reach u form (init db0) c) : Inv db0 u form c := by
  induction h with
  | refl => exact Or.inl ⟨rfl, rfl, rfl, rfl⟩
  | tail hr hs ih =>
    rename_i b c
    cases hs with
    | claimA h1 h2 h3 =>
      rcases ih with ⟨hdb, hcl, hpa, hpb⟩ | ⟨hdb, hcl, hpa, hpb⟩ |
        ⟨hdb, hcl, hpa, hpb⟩ | ⟨hdb, hcl, hpa, hpb, hone⟩
      · exact Or.inr (Or.inl ⟨hdb, rfl, rfl, hpb⟩)
      · rw [hcl] at h1; cases h1
      · rw [hcl] at h1; cases h1
      · rw [hdb, find_commitDb] at h3; cases h3
    | claimB h1 h2 h3 =>
      rcases ih with ⟨hdb, hcl, hpa, hpb⟩ | ⟨hdb, hcl, hpa, hpb⟩ |
        ⟨hdb, hcl, hpa, hpb⟩ | ⟨hdb, hcl, hpa, hpb, hone⟩
      · exact Or.inr (Or.inr (Or.inl ⟨hdb, rfl, hpa, rfl⟩))
      · rw [hcl] at h1; cases h1
      · rw [hcl] at h1; cases h1
      · rw [hdb, find_commitDb] at h3; cases h3
    | commitA h1 h2 =>
      rcases ih with ⟨hdb, hcl, hpa, hpb⟩ | ⟨hdb, hcl, hpa, hpb⟩ |
        ⟨hdb, hcl, hpa, hpb⟩ | ⟨hdb, hcl, hpa, hpb, hone⟩
      · rw [hcl] at h1; cases h1
      · exact Or.inr (Or.inr (Or.inr
          ⟨by rw [hdb], rfl, Or.inl rfl, Or.inr hpb, Or.inl rfl⟩))
      · rw [hcl] at h1; cases h1
      · rw [hcl] at h1; cases h1
    | commitB h1 h2 =>
      rcases ih with ⟨hdb, hcl, hpa, hpb⟩ | ⟨hdb, hcl, hpa, hpb⟩ |
        ⟨hdb, hcl, hpa, hpb⟩ | ⟨hdb, hcl, hpa, hpb, hone⟩
      · rw [hcl] at h1; cases h1
      · rw [hcl] at h1; cases h1
      · exact Or.inr (Or.inr (Or.inr
          ⟨by rw [hdb], rfl, Or.inr hpa, Or.inl rfl, Or.inr rfl⟩))
      · rw [hcl] at h1; cases h1
    | replayA R h2 h3 =>
      rcases ih with ⟨hdb, hcl, hpa, hpb⟩ | ⟨hdb, hcl, hpa, hpb⟩ |
        ⟨hdb, hcl, hpa, hpb⟩ | ⟨hdb, hcl, hpa, hpb, hone⟩
      · rw [hdb, hfresh] at h3; cases h3
      · rw [hdb, hfresh] at h3; cases h3
      · rw [hdb, hfresh] at h3; cases h3
      · rw [hdb, find_commitDb] at h3
        obtain hR : R = see_other "/admin/newsletters" := by
          cases h3; rfl
        exact Or.inr (Or.inr (Or.inr
          ⟨hdb, hcl, Or.inl (by rw [hR]), hpb, Or.inl (by rw [hR])⟩))
    | replayB R h2 h3 =>
      rcases ih with ⟨hdb, hcl, hpa, hpb⟩ | ⟨hdb, hcl, hpa, hpb⟩ |
        ⟨hdb, hcl, hpa, hpb⟩ | ⟨hdb, hcl, hpa, hpb, hone⟩
      · rw [hdb, hfresh] at h3; cases h3
      · rw [hdb, hfresh] at h3; cases h3
      · rw [hdb, hfresh] at h3; cases h3
      · rw [hdb, find_commitDb] at h3
        obtain hR : R = see_other "/admin/newsletters" := by
          cases h3; rfl
        exact Or.inr (Or.inr (Or.inr
          ⟨hdb, hcl, hpa, Or.inl (by rw [hR]), Or.inr (by rw [hR])⟩))

end Conc

/-- C5: in every state reachable from two simultaneous publish calls
with the same fresh `(owner, key)`, at most one in-progress-or-completed
idempotency record exists for the key (the claim plus the stored rows
never exceed one), at most one issue has been created, and whenever
both callers have finished they hold the same final response. -/
theorem concurrent_publish_single_issue (db0 : DbState) (u : Nat)
    (form : FormData) (c : Conc.Config)
    (hfresh : findIdempotencyRow db0 u form.idempotencyKey = none)
    (hreach : Conc.Reach u form (Conc.init db0) c) :
    (c.db.idempotency.filter (rowMatches u form.idempotencyKey)).length +
      (if c.claim.isSome then 1 else 0) ≤ 1 ∧
    c.db.issues.length ≤ db0.issues.length + 1 ∧
    (∀ ra rb, c.phaseA = .done ra → c.phaseB = .done rb → ra = rb) := by
  have hnone : ∀ a ∈ db0.idempotency,
      ¬ rowMatches u form.idempotencyKey a = true := by
    have h := hfresh
    unfold findIdempotencyRow at h
    exact List.find?_eq_none.mp h
  have hfilter0 : (db0.idempotency.filter
      (rowMatches u form.idempotencyKey)).length = 0 := by
    rw [List.filter_eq_nil_iff.mpr hnone]
    rfl
  have hfilter1 : ((Conc.commitDb db0 u form).idempotency.filter
      (rowMatches u form.idempotencyKey)).length = 1 := by
    have hid : (Conc.commitDb db0 u form).idempotency =
        ⟨u, form.idempotencyKey,
          some (see_other "/admin/newsletters")⟩ :: db0.idempotency := rfl
    rw [hid, List.filter_cons_of_pos
      (rowMatches_self u form.idempotencyKey _), List.length_cons,
      hfilter0]
  rcases Conc.reach_inv db0 u form hfresh hreach with
    ⟨hdb, hcl, hpa, hpb⟩ | ⟨hdb, hcl, hpa, hpb⟩ |
    ⟨hdb, hcl, hpa, hpb⟩ | ⟨hdb, hcl, hpa, hpb, hone⟩
  · refine ⟨?_, ?_, ?_⟩
    · rw [hdb, hfilter0, hcl]; simp
    · rw [hdb]; omega
    · intro ra rb hra hrb; rw [hpa] at hra; cases hra
  · refine ⟨?_, ?_, ?_⟩
    · rw [hdb, hfilter0, hcl]; simp
    · rw [hdb]; omega
    · intro ra rb hra hrb; rw [hpa] at hra; cases hra
  · refine ⟨?_, ?_, ?_⟩
    · rw [hdb, hfilter0, hcl]; simp
    · rw [hdb]; omega
    · intro ra rb hra hrb; rw [hpa] at hra; cases hra
  · refine ⟨?_, ?_, ?_⟩
    · rw [hdb, hfilter1, hcl]; simp
    · rw [hdb]; unfold Conc.commitDb; simp
    · intro ra rb hra hrb
      rcases hpa with hpa | hpa
      · rcases hpb with hpb | hpb
        · rw [hpa] at hra; rw [hpb] at hrb
          cases hra; cases hrb; rfl
        · rw [hpb] at hrb; cases hrb
      · rw [hpa] at hra; cases hra

/-- C5 witness: a concrete race in which publisher A claims the fresh
key `"abc123"` and commits, then publisher B replays the committed
response — both finish with the same response over one issue. -/
theorem concurrent_publish_single_issue_witness :
    (((Conc.commitDb ⟨[], [], [], [⟨"a@b.com", "confirmed"⟩], 0⟩ 1
        ⟨"t", "x", "h", "abc123"⟩).idempotency.filter
          (rowMatches 1 "abc123")).length +
      (if (none : Option Bool).isSome then 1 else 0) ≤ 1) ∧
    (Conc.commitDb ⟨[], [], [], [⟨"a@b.com", "confirmed"⟩], 0⟩ 1
        ⟨"t", "x", "h", "abc123"⟩).issues.length ≤ 0 + 1 ∧
    (∀ ra rb,
      Conc.Phase.done (see_other "/admin/newsletters") = .done ra →
      Conc.Phase.done (see_other "/admin/newsletters") = .done rb →
      ra = rb) :=
  concurrent_publish_single_issue
    ⟨[], [], [], [⟨"a@b.com", "confirmed"⟩], 0⟩ 1
    ⟨"t", "x", "h", "abc123"⟩
    ⟨Conc.commitDb ⟨[], [], [], [⟨"a@b.com", "confirmed"⟩], 0⟩ 1
        ⟨"t", "x", "h", "abc123"⟩, none,
      .done (see_other "/admin/newsletters"),
      .done (see_other "/admin/newsletters")⟩
    rfl
    (Conc.Reach.tail
      (Conc.Reach.tail
        (Conc.Reach.tail Conc.Reach.refl
          (Conc.Step.claimA _ rfl rfl rfl))
        (Conc.Step.commitA _ rfl rfl))
      (Conc.Step.replayB _ (see_other "/admin/newsletters") rfl rfl))

/-! ### The delivery worker -/

namespace Worker

/-- Observable delivery events of the worker, in trace order: an
attempt is the single sender invocation of a polling cycle; it is
followed in the same atomic cycle by deletion on success, requeue with
the incremented counter, or deletion with a logged abandonment. -/
inductive Event where
  | attempt (issueId : Nat) (email : String)
  | delivered (issueId : Nat) (email : String)
  | requeued (issueId : Nat) (email : String) (n : Nat)
  | abandoned (issueId : Nat) (email : String)
deriving DecidableEq, Repr

/-- A worker configuration: the `issue_delivery_queue` table plus the
log of delivery events so far. -/
structure WConfig where
  queue : List QueueRow
  trace : List Event
deriving DecidableEq, Repr

/-- Whether the queue holds a row for the `(issue_id,
subscriber_email)` primary key. -/
def hasKey (q : List QueueRow) (i : Nat) (e : String) : Bool :=
  q.any (fun r => r.issueId = i && r.subscriberEmail = e)

/-- `DELETE FROM issue_delivery_queue WHERE issue_id = $1 AND
subscriber_email = $2`. -/
def deleteKey (q : List QueueRow) (i : Nat) (e : String) : List QueueRow :=
  q.filter (fun r => ! (r.issueId = i && r.subscriberEmail = e))

/-- The retry-counter increment of the failure path: bump `n_retries`
on the row with the given key. -/
def bumpRetry (q : List QueueRow) (i : Nat) (e : String) : List QueueRow :=
  q.map (fun r =>
    if r.issueId = i && r.subscriberEmail = e then
      { r with nRetries := r.nRetries + 1 }
    else r)

/-- Modelled from the spec: one polling cycle of the delivery worker
(`src/issue_delivery_worker.rs` is not in the tree; `src/main.rs` only
spawns `run_worker_until_stopped`).  The cycle claims one pending row,
invokes the sender once, and resolves atomically: on success it deletes
the row in the same transaction that claimed it; on failure it
increments the retry counter and requeues while the counter stays below
the configured maximum, and deletes the row with a logged abandonment
once the counter reaches the maximum.  The sender outcome is
nondeterministic, covering every sender behaviour. -/
inductive WStep (maxRetries : Nat) : WConfig → WConfig → Prop where
  | succeed (c : WConfig) (r : QueueRow) (hmem : r ∈ c.queue) :
      WStep maxRetries c
        ⟨deleteKey c.queue r.issueId r.subscriberEmail,
         c.trace ++ [.attempt r.issueId r.subscriberEmail,
           .delivered r.issueId r.subscriberEmail]⟩
  | fail_requeue (c : WConfig) (r : QueueRow) (hmem : r ∈ c.queue)
      (hlt : r.nRetries + 1 < maxRetries) :
      WStep maxRetries c
        ⟨bumpRetry c.queue r.issueId r.subscriberEmail,
         c.trace ++ [.attempt r.issueId r.subscriberEmail,
           .requeued r.issueId r.subscriberEmail (r.nRetries + 1)]⟩
  | fail_abandon (c : WConfig) (r : QueueRow) (hmem : r ∈ c.queue)
      (hge : maxRetries ≤ r.nRetries + 1) :
      WStep maxRetries c
        ⟨deleteKey c.queue r.issueId r.subscriberEmail,
         c.trace ++ [.attempt r.issueId r.subscriberEmail,
           .abandoned r.issueId r.subscriberEmail]⟩

/-- Reflexive-transitive closure of worker cycles. -/
inductive WReach (maxRetries : Nat) (c0 : WConfig) : WConfig → Prop
  | refl : WReach maxRetries c0 c0
  | tail {b c : WConfig} : WReach maxRetries c0 b →
      WStep maxRetries b c → WReach maxRetries c0 c

/-- Number of delivery attempts recorded for one `(issue, recipient)`
pair. -/
def countAttempts (i : Nat) (e : String) (tr : List Event) : Nat :=
  (tr.filter (fun ev => ev = Event.attempt i e)).length

/-- The `(issue_id, subscriber_email)` primary key of a queue row. -/
def keyOf (r : QueueRow) : Nat × String := (r.issueId, r.subscriberEmail)

/-- The primary-key constraint of `issue_delivery_queue`: row keys are
pairwise distinct. -/
def keysNodup (q : List QueueRow) : Prop := (q.map keyOf).Nodup

lemma hasKey_of_mem {q : List QueueRow} {r : QueueRow} (h : r ∈ q) :
    hasKey q r.issueId r.subscriberEmail = true := by
  unfold hasKey
  rw [List.any_eq_true]
  exact ⟨r, h, by simp⟩

lemma hasKey_deleteKey (q : List QueueRow) (i : Nat) (e : String) :
    hasKey (deleteKey q i e) i e = false := by
  unfold hasKey deleteKey
  rw [Bool.eq_false_iff]
  intro h
  rw [List.any_eq_true] at h
  obtain ⟨r, hr, hkey⟩ := h
  rw [List.mem_filter] at hr
  rw [hkey] at hr
  exact absurd hr.2 (by simp)

lemma hasKey_deleteKey_mono {q : List QueueRow} {i j : Nat}
    {e f : String} (h : hasKey (deleteKey q j f) i e = true) :
    hasKey q i e = true := by
  unfold hasKey at h ⊢
  rw [List.any_eq_true] at h ⊢
  obtain ⟨r, hr, hkey⟩ := h
  exact ⟨r, (List.mem_filter.mp hr).1, hkey⟩

lemma hasKey_bumpRetry (q : List QueueRow) (j i : Nat) (f e : String) :
    hasKey (bumpRetry q j f) i e = hasKey q i e := by
  induction q with
  | nil => rfl
  | cons r rest ih =>
    unfold hasKey bumpRetry
    simp only [List.map_cons, List.any_cons]
    unfold hasKey bumpRetry at ih
    rw [ih]
    by_cases hc : (r.issueId = j && r.subscriberEmail = f) = true
    · rw [if_pos hc]
    · rw [if_neg hc]

lemma countAttempts_nil (i : Nat) (e : String) :
    countAttempts i e [] = 0 := rfl

lemma countAttempts_append (i : Nat) (e : String) (tr1 tr2 : List Event) :
    countAttempts i e (tr1 ++ tr2) =
      countAttempts i e tr1 + countAttempts i e tr2 := by
  unfold countAttempts
  rw [List.filter_append, List.length_append]

lemma countAttempts_cons (i : Nat) (e : String) (ev : Event)
    (tr : List Event) :
    countAttempts i e (ev :: tr) =
      (if ev = Event.attempt i e then 1 else 0) + countAttempts i e tr := by
  unfold countAttempts
  by_cases hc : ev = Event.attempt i e
  · simp [List.filter_cons, hc]
    omega
  · simp [List.filter_cons, hc]

lemma countAttempts_snoc2 (i : Nat) (e : String) (a b : Event)
    (tr : List Event) :
    countAttempts i e (tr ++ [a, b]) =
      countAttempts i e tr + (if a = Event.attempt i e then 1 else 0) +
        (if b = Event.attempt i e then 1 else 0) := by
  rw [countAttempts_append, countAttempts_cons, countAttempts_cons,
    countAttempts_nil]
  omega

lemma hasKey_exists {q : List QueueRow} {i : Nat} {e : String}
    (h : hasKey q i e = true) :
    ∃ r ∈ q, r.issueId = i ∧ r.subscriberEmail = e := by
  unfold hasKey at h
  rw [List.any_eq_true] at h
  obtain ⟨r, hr, hb⟩ := h
  exact ⟨r, hr, by simpa using hb⟩

lemma hasKey_deleteKey_false {q : List QueueRow} {j i : Nat}
    {f e : String} (h : hasKey q i e = false) :
    hasKey (deleteKey q j f) i e = false := by
  cases hk : hasKey (deleteKey q j f) i e
  · rfl
  · rw [hasKey_deleteKey_mono hk] at h
    cases h

/-- In one worker cycle no attempt is recorded for a pair whose row is
absent, and the pair's row stays absent: a cycle touches only a row it
claimed from the queue. -/
lemma step_no_new_attempt {m : Nat} {c c' : WConfig} {i : Nat}
    {e : String} (h : WStep m c c') (hno : hasKey c.queue i e = false) :
    countAttempts i e c'.trace = countAttempts i e c.trace ∧
      hasKey c'.queue i e = false := by
  have hkey : ∀ r : QueueRow, r ∈ c.queue →
      ¬ (r.issueId = i ∧ r.subscriberEmail = e) := by
    intro r hr hc
    have hk := hasKey_of_mem hr
    rw [hc.1, hc.2, hno] at hk
    cases hk
  cases h with
  | succeed r hmem =>
    constructor
    · rw [countAttempts_snoc2, if_neg ?_, if_neg (by simp)]
      · omega
      · intro heq
        injection heq with h1 h2
        exact hkey r hmem ⟨h1, h2⟩
    · exact hasKey_deleteKey_false hno
  | fail_requeue r hmem hlt =>
    constructor
    · rw [countAttempts_snoc2, if_neg ?_, if_neg (by simp)]
      · omega
      · intro heq
        injection heq with h1 h2
        exact hkey r hmem ⟨h1, h2⟩
    · rw [hasKey_bumpRetry]
      exact hno
  | fail_abandon r hmem hge =>
    constructor
    · rw [countAttempts_snoc2, if_neg ?_, if_neg (by simp)]
      · omega
      · intro heq
        injection heq with h1 h2
        exact hkey r hmem ⟨h1, h2⟩
    · exact hasKey_deleteKey_false hno

/-- Once a pair's row is absent, it is absent in every later state and
its attempt count is frozen: the worker never re-inserts rows. -/
lemma noKey_frozen {m : Nat} {c c' : WConfig} {i : Nat} {e : String}
    (h : WReach m c c') (hno : hasKey c.queue i e = false) :
    hasKey c'.queue i e = false ∧
      countAttempts i e c'.trace = countAttempts i e c.trace := by
  induction h with
  | refl => exact ⟨hno, rfl⟩
  | tail hr hs ih =>
    obtain ⟨hk, hc⟩ := ih
    obtain ⟨hc2, hk2⟩ := step_no_new_attempt hs hk
    exact ⟨hk2, by rw [hc2, hc]⟩

lemma mem_deleteKey {q : List QueueRow} {i : Nat} {e : String}
    {r' : QueueRow} (h : r' ∈ deleteKey q i e) :
    r' ∈ q ∧ ¬ (r'.issueId = i ∧ r'.subscriberEmail = e) := by
  unfold deleteKey at h
  rw [List.mem_filter] at h
  refine ⟨h.1, ?_⟩
  intro hc
  have hb := h.2
  rw [hc.1, hc.2] at hb
  simp at hb

lemma keysNodup_deleteKey {q : List QueueRow} (h : keysNodup q)
    (i : Nat) (e : String) : keysNodup (deleteKey q i e) := by
  unfold keysNodup at h ⊢
  unfold deleteKey
  exact List.Nodup.sublist (List.Sublist.map keyOf (List.filter_sublist q)) h

lemma keyOf_bump (r : QueueRow) (i : Nat) (e : String) :
    keyOf (if r.issueId = i && r.subscriberEmail = e then
      { r with nRetries := r.nRetries + 1 } else r) = keyOf r := by
  by_cases hc : (r.issueId = i && r.subscriberEmail = e) = true
  · rw [if_pos hc]; rfl
  · rw [if_neg hc]

lemma keysNodup_bumpRetry {q : List QueueRow} (h : keysNodup q)
    (i : Nat) (e : String) : keysNodup (bumpRetry q i e) := by
  unfold keysNodup at h ⊢
  unfold bumpRetry
  rw [List.map_map]
  have heq : List.map (keyOf ∘ fun r =>
      if r.issueId = i && r.subscriberEmail = e then
        { r with nRetries := r.nRetries + 1 } else r) q =
      List.map keyOf q :=
    List.map_congr_left (fun r _ => keyOf_bump r i e)
  rw [heq]
  exact h

lemma nodup_key_unique {q : List QueueRow} (hn : keysNodup q)
    {r r' : QueueRow} (hr : r ∈ q) (hr' : r' ∈ q)
    (hk : keyOf r = keyOf r') : r = r' :=
  List.inj_on_of_nodup_map hn hr hr' hk

/-- The retry-budget invariant: queue keys are distinct, every queued
row's counter equals its recorded attempt count and stays strictly
below the budget after one more attempt, and the attempt count of every
absent pair is at most the budget. -/
def WInv (m : Nat) (c : WConfig) : Prop :=
  keysNodup c.queue ∧
  (∀ r ∈ c.queue,
    countAttempts r.issueId r.subscriberEmail c.trace = r.nRetries ∧
    r.nRetries + 1 ≤ m) ∧
  (∀ i e, hasKey c.queue i e = false → countAttempts i e c.trace ≤ m)

lemma step_WInv {m : Nat} {c c' : WConfig} (h : WStep m c c')
    (hi : WInv m c) : WInv m c' := by
  obtain ⟨hn, hrow, habs⟩ := hi
  cases h with
  | succeed r hmem =>
    refine ⟨keysNodup_deleteKey hn _ _, ?_, ?_⟩
    · intro r' hr'
      obtain ⟨hr'q, hr'ne⟩ := mem_deleteKey hr'
      rw [countAttempts_snoc2, if_neg ?_, if_neg (by simp)]
      · have := hrow r' hr'q
        omega
      · intro heq
        injection heq with h1 h2
        exact hr'ne ⟨h1.symm, h2.symm⟩
    · intro i e hke
      by_cases hsame : i = r.issueId ∧ e = r.subscriberEmail
      · obtain ⟨rfl, rfl⟩ := hsame
        rw [countAttempts_snoc2, if_pos rfl, if_neg (by simp)]
        have := hrow r hmem
        omega
      · rw [countAttempts_snoc2, if_neg ?_, if_neg (by simp)]
        · have hbound : countAttempts i e c.trace ≤ m := by
            cases hq : hasKey c.queue i e
            · exact habs i e hq
            · obtain ⟨r'', hr'', hki, hke'⟩ := hasKey_exists hq
              have := hrow r'' hr''
              rw [← hki, ← hke']
              omega
          omega
        · intro heq
          injection heq with h1 h2
          exact hsame ⟨h1.symm, h2.symm⟩
  | fail_requeue r hmem hlt =>
    refine ⟨keysNodup_bumpRetry hn _ _, ?_, ?_⟩
    · intro r'' hr''
      unfold bumpRetry at hr''
      obtain ⟨r', hr'q, heq⟩ := List.mem_map.mp hr''
      by_cases hc : (r'.issueId = r.issueId &&
          r'.subscriberEmail = r.subscriberEmail) = true
      · have hc' : r'.issueId = r.issueId ∧
            r'.subscriberEmail = r.subscriberEmail := by
          simpa using hc
        have hr'r : r' = r := nodup_key_unique hn hr'q hmem
          (by unfold keyOf; rw [hc'.1, hc'.2])
        have hcount : countAttempts r.issueId r.subscriberEmail
            (c.trace ++ [Event.attempt r.issueId r.subscriberEmail,
              Event.requeued r.issueId r.subscriberEmail
                (r.nRetries + 1)]) = r.nRetries + 1 := by
          rw [countAttempts_snoc2, if_pos rfl, if_neg (by simp)]
          have := hrow r hmem
          omega
        have hb : r.nRetries + 1 + 1 ≤ m := by omega
        have hr''eq : r'' = { r with nRetries := r.nRetries + 1 } := by
          rw [← heq, hr'r, if_pos (by simp)]
        rw [hr''eq]
        exact ⟨hcount, hb⟩
      · have hr''eq : r'' = r' := by rw [← heq, if_neg hc]
        rw [hr''eq]
        have hcount : countAttempts r'.issueId r'.subscriberEmail
            (c.trace ++ [Event.attempt r.issueId r.subscriberEmail,
              Event.requeued r.issueId r.subscriberEmail
                (r.nRetries + 1)]) = r'.nRetries := by
          rw [countAttempts_snoc2, if_neg ?_, if_neg (by simp)]
          · have := hrow r' hr'q
            omega
          · intro heq2
            injection heq2 with h1 h2
            apply hc
            simp [h1.symm, h2.symm]
        exact ⟨hcount, (hrow r' hr'q).2⟩
    · intro i e hke
      rw [hasKey_bumpRetry] at hke
      by_cases hsame : i = r.issueId ∧ e = r.subscriberEmail
      · obtain ⟨rfl, rfl⟩ := hsame
        rw [hasKey_of_mem hmem] at hke
        cases hke
      · rw [countAttempts_snoc2, if_neg ?_, if_neg (by simp)]
        · have := habs i e hke
          omega
        · intro heq2
          injection heq2 with h1 h2
          exact hsame ⟨h1.symm, h2.symm⟩
  | fail_abandon r hmem hge =>
    refine ⟨keysNodup_deleteKey hn _ _, ?_, ?_⟩
    · intro r' hr'
      obtain ⟨hr'q, hr'ne⟩ := mem_deleteKey hr'
      rw [countAttempts_snoc2, if_neg ?_, if_neg (by simp)]
      · have := hrow r' hr'q
        omega
      · intro heq
        injection heq with h1 h2
        exact hr'ne ⟨h1.symm, h2.symm⟩
    · intro i e hke
      by_cases hsame : i = r.issueId ∧ e = r.subscriberEmail
      · obtain ⟨rfl, rfl⟩ := hsame
        rw [countAttempts_snoc2, if_pos rfl, if_neg (by simp)]
        have := hrow r hmem
        omega
      · rw [countAttempts_snoc2, if_neg ?_, if_neg (by simp)]
        · have hbound : countAttempts i e c.trace ≤ m := by
            cases hq : hasKey c.queue i e
            · exact habs i e hq
            · obtain ⟨r'', hr'', hki, hke'⟩ := hasKey_exists hq
              have := hrow r'' hr''
              rw [← hki, ← hke']
              omega
          omega
        · intro heq
          injection heq with h1 h2
          exact hsame ⟨h1.symm, h2.symm⟩

lemma reach_WInv {m : Nat} {c0 c : WConfig} (h : WReach m c0 c)
    (h0 : WInv m c0) : WInv m c := by
  induction h with
  | refl => exact h0
  | tail hr hs ih => exact step_WInv hs ih

/-- Every delivered pair has no row left in the queue. -/
def deliveredGone (c : WConfig) : Prop :=
  ∀ i e, Event.delivered i e ∈ c.trace → hasKey c.queue i e = false

lemma step_deliveredGone {m : Nat} {c c' : WConfig} (h : WStep m c c')
    (hd : deliveredGone c) : deliveredGone c' := by
  intro i e hmem
  cases h with
  | succeed r hmemr =>
    rw [List.mem_append] at hmem
    rcases hmem with hold | hnew
    · exact hasKey_deleteKey_false (hd i e hold)
    · cases hnew with
      | tail _ h2 =>
        cases h2 with
        | head => exact hasKey_deleteKey c.queue r.issueId r.subscriberEmail
        | tail _ h3 => cases h3
  | fail_requeue r hmemr hlt =>
    rw [List.mem_append] at hmem
    rcases hmem with hold | hnew
    · rw [hasKey_bumpRetry]
      exact hd i e hold
    · cases hnew with
      | tail _ h2 =>
        cases h2 with
        | tail _ h3 => cases h3
  | fail_abandon r hmemr hge =>
    rw [List.mem_append] at hmem
    rcases hmem with hold | hnew
    · exact hasKey_deleteKey_false (hd i e hold)
    · cases hnew with
      | tail _ h2 =>
        cases h2 with
        | tail _ h3 => cases h3

lemma reach_deliveredGone {m : Nat} {c0 c : WConfig}
    (h : WReach m c0 c) (h0 : deliveredGone c0) : deliveredGone c := by
  induction h with
  | refl => exact h0
  | tail hr hs ih => exact step_deliveredGone hs ih

end Worker

/-- C2: once the sender has reported success for an obligation — the
`succeed` cycle, whose claim, success observation and row deletion form
one atomic step — the obligation's row is gone from the queue, stays
gone in every reachable later state, and no further delivery attempt is
ever recorded for that `(issue, recipient)` pair. -/
theorem worker_no_attempt_after_success (m : Nat)
    (c0 c c' : Worker.WConfig) (i : Nat) (e : String)
    (h0 : c0.trace = [])
    (h1 : Worker.WReach m c0 c)
    (hdel : Worker.Event.delivered i e ∈ c.trace)
    (h2 : Worker.WReach m c c') :
    Worker.hasKey c.queue i e = false ∧
    Worker.hasKey c'.queue i e = false ∧
    Worker.countAttempts i e c'.trace =
      Worker.countAttempts i e c.trace := by
  have hd0 : Worker.deliveredGone c0 := by
    intro i' e' hm
    rw [h0] at hm
    cases hm
  have hgone := Worker.reach_deliveredGone h1 hd0 i e hdel
  obtain ⟨ha, hb⟩ := Worker.noKey_frozen h2 hgone
  exact ⟨hgone, ha, hb⟩

/-- C2 witness: the worker delivers `a@b.com` for issue 1 and then runs
one more cycle on another recipient; no attempt for the delivered pair
recurs. -/
theorem worker_no_attempt_after_success_witness :
    Worker.hasKey [⟨1, "c@d.com", 0⟩] 1 "a@b.com" = false ∧
    Worker.hasKey [] 1 "a@b.com" = false ∧
    Worker.countAttempts 1 "a@b.com"
        [.attempt 1 "a@b.com", .delivered 1 "a@b.com",
         .attempt 1 "c@d.com", .delivered 1 "c@d.com"] =
      Worker.countAttempts 1 "a@b.com"
        [.attempt 1 "a@b.com", .delivered 1 "a@b.com"] :=
  worker_no_attempt_after_success 3
    ⟨[⟨1, "a@b.com", 0⟩, ⟨1, "c@d.com", 0⟩], []⟩
    ⟨[⟨1, "c@d.com", 0⟩],
     [.attempt 1 "a@b.com", .delivered 1 "a@b.com"]⟩
    ⟨[], [.attempt 1 "a@b.com", .delivered 1 "a@b.com",
          .attempt 1 "c@d.com", .delivered 1 "c@d.com"]⟩
    1 "a@b.com" rfl
    (Worker.WReach.tail Worker.WReach.refl
      (Worker.WStep.succeed _ ⟨1, "a@b.com", 0⟩ (by simp)))
    (by simp)
    (Worker.WReach.tail Worker.WReach.refl
      (Worker.WStep.succeed _ ⟨1, "c@d.com", 0⟩ (by simp)))

/-- C3: starting from a freshly enqueued obligation set (zero retry
counters, distinct keys, empty log), in every reachable queue state
each row's retry counter is strictly below the configured maximum, no
pair is ever attempted more than the maximum number of times, and a row
whose counter has reached the budget is resolved by the abandoning
cycle — the row is deleted, an abandonment is logged, and in every
state reachable afterwards the pair stays out of the queue with its
attempt count still at most the maximum. -/
theorem worker_bounded_retries (m : Nat) (c0 c : Worker.WConfig)
    (hm : 1 ≤ m)
    (h0q : ∀ r ∈ c0.queue, r.nRetries = 0)
    (h0t : c0.trace = [])
    (h0n : Worker.keysNodup c0.queue)
    (hreach : Worker.WReach m c0 c) :
    (∀ r ∈ c.queue, r.nRetries < m) ∧
    (∀ i e, Worker.countAttempts i e c.trace ≤ m) ∧
    (∀ r ∈ c.queue, m ≤ r.nRetries + 1 →
      Worker.WStep m c
        ⟨Worker.deleteKey c.queue r.issueId r.subscriberEmail,
         c.trace ++ [.attempt r.issueId r.subscriberEmail,
           .abandoned r.issueId r.subscriberEmail]⟩ ∧
      (∀ c', Worker.WReach m
          ⟨Worker.deleteKey c.queue r.issueId r.subscriberEmail,
           c.trace ++ [.attempt r.issueId r.subscriberEmail,
             .abandoned r.issueId r.subscriberEmail]⟩ c' →
        Worker.hasKey c'.queue r.issueId r.subscriberEmail = false ∧
        Worker.countAttempts r.issueId r.subscriberEmail c'.trace ≤ m)) := by
  have h0 : Worker.WInv m c0 := by
    refine ⟨h0n, ?_, ?_⟩
    · intro r hr
      rw [h0t, h0q r hr]
      exact ⟨rfl, by omega⟩
    · intro i e _
      rw [h0t]
      exact Nat.zero_le m
  obtain ⟨hn, hrow, habs⟩ := Worker.reach_WInv hreach h0
  refine ⟨?_, ?_, ?_⟩
  · intro r hr
    have := hrow r hr
    omega
  · intro i e
    cases hq : Worker.hasKey c.queue i e
    · exact habs i e hq
    · obtain ⟨r, hr, hki, hke⟩ := Worker.hasKey_exists hq
      have := hrow r hr
      rw [← hki, ← hke]
      omega
  · intro r hr hbudget
    refine ⟨Worker.WStep.fail_abandon c r hr hbudget, ?_⟩
    intro c' hreach2
    have hkc : Worker.hasKey
        (Worker.deleteKey c.queue r.issueId r.subscriberEmail)
        r.issueId r.subscriberEmail = false :=
      Worker.hasKey_deleteKey c.queue r.issueId r.subscriberEmail
    obtain ⟨hk', hc'⟩ := Worker.noKey_frozen hreach2 hkc
    refine ⟨hk', ?_⟩
    rw [hc']
    have hcnt : Worker.countAttempts r.issueId r.subscriberEmail
        (c.trace ++ [.attempt r.issueId r.subscriberEmail,
          .abandoned r.issueId r.subscriberEmail]) = r.nRetries + 1 := by
      rw [Worker.countAttempts_snoc2, if_pos rfl, if_neg (by simp)]
      have := hrow r hr
      omega
    rw [hcnt]
    exact (hrow r hr).2

/-- C3 witness: budget 1, one fresh obligation; the abandoning step
applies immediately on failure and freezes the pair. -/
theorem worker_bounded_retries_witness :
    (∀ r ∈ [(⟨1, "a@b.com", 0⟩ : QueueRow)], r.nRetries < 1) ∧
    (∀ i e, Worker.countAttempts i e [] ≤ 1) ∧
    (∀ r ∈ [(⟨1, "a@b.com", 0⟩ : QueueRow)], 1 ≤ r.nRetries + 1 →
      Worker.WStep 1 ⟨[⟨1, "a@b.com", 0⟩], []⟩
        ⟨Worker.deleteKey [⟨1, "a@b.com", 0⟩] r.issueId r.subscriberEmail,
         [] ++ [.attempt r.issueId r.subscriberEmail,
           .abandoned r.issueId r.subscriberEmail]⟩ ∧
      (∀ c', Worker.WReach 1
          ⟨Worker.deleteKey [⟨1, "a@b.com", 0⟩] r.issueId
            r.subscriberEmail,
           [] ++ [.attempt r.issueId r.subscriberEmail,
             .abandoned r.issueId r.subscriberEmail]⟩ c' →
        Worker.hasKey c'.queue r.issueId r.subscriberEmail = false ∧
        Worker.countAttempts r.issueId r.subscriberEmail c'.trace ≤ 1)) :=
  worker_bounded_retries 1 ⟨[⟨1, "a@b.com", 0⟩], []⟩
    ⟨[⟨1, "a@b.com", 0⟩], []⟩ (by omega)
    (by
      intro r hr
      rw [List.mem_singleton] at hr
      rw [hr])
    rfl
    (by
      unfold Worker.keysNodup
      decide)
    Worker.WReach.refl

end Melierx
